import Mathlib

/-!
Verification of the markup template engine (`src/markup/template.py`).

This file gives a shallow embedding of the compile-and-interpret pipeline of
the template engine: the scoped variable `Context`, the eight built-in
directives, the text-interpolation scanner, the single-pass parser that
produces the compiled event stream, and the recursive transform of
`Template.generate`.

Modelling conventions:
* Python lists become Lean `List`s; Python dicts become association lists.
* Python generators are modelled eagerly: a directive's output stream is the
  list of events it would yield when fully consumed.  A `StopIteration`
  raised by `stream.next()` inside a generator body simply terminates the
  generator, which the eager model reproduces by returning the events yielded
  so far.
* In-place mutation (`list.reverse()` on the directive list of a SUB event,
  `self.stream = list(stream)` in `DefDirective.__call__` and
  `MatchDirective.__call__`) is modelled by state passing: the transform
  returns, next to its output, the updated compiled stream, exactly as the
  mutated objects persist inside `Template.stream` between `generate` calls.
  Aliasing of nested SUB events through replicated substreams is not tracked;
  the theorems below only evaluate top-level SUB nodes, where the threading
  model agrees with the source's in-place mutation.
* Fallible operations (assertion failures, attribute errors, unpacking
  errors) return `Option`/`Except`.
* Code external to `src/` (the expression evaluator `markup.eval`, the
  filters of `markup.filters`, the attribute collection of `markup.core`) is
  modelled from the spec; each such definition is marked
  `Modelled from the spec:` in its doc comment.
-/

namespace Genshi

/-- Source position `(line, column)` attached to every event. -/
abbrev Pos := Nat × Nat

/-- Qualified attribute/element name: optional namespace URI plus local name. -/
structure QName where
  ns : Option String
  localname : String
deriving DecidableEq

/-- The directive namespace URI (`Template.NAMESPACE` in the source). -/
def NAMESPACE : String := "http://purl.org/kid/ns#"

/-- Python values as far as the engine inspects them: `None`, booleans,
integers, strings, lists, 2-tuples, dicts (association lists with string
keys), and the callables bound by `py:def` (kept opaque, tagged by name). -/
inductive Value where
  | none
  | bool (b : Bool)
  | int (n : Int)
  | str (s : String)
  | list (items : List Value)
  | pair (a b : Value)
  | dict (entries : List (String × Value))
  | callable (fname : String)

/-- Python truthiness of a `Value` (used by `py:if`, `py:attrs`, `py:strip`). -/
def truthy : Value → Bool
  | .none => false
  | .bool b => b
  | .int n => n != 0
  | .str s => !s.isEmpty
  | .list l => !l.isEmpty
  | .pair _ _ => true
  | .dict d => !d.isEmpty
  | .callable _ => true

/-- Modelled from the spec: Python `unicode(value)` as used by
`AttrsDirective` and by the external serialisation of expression results.
Container renderings are best-effort; the claims below only rely on the
scalar cases. -/
def pyStr : Value → String
  | .none => "None"
  | .bool true => "True"
  | .bool false => "False"
  | .int n => toString n
  | .str s => s
  | .list items => "[" ++ String.intercalate ", " (items.map pyStrAux) ++ "]"
  | .pair a b => "(" ++ pyStrAux a ++ ", " ++ pyStrAux b ++ ")"
  | .dict entries =>
      "\x7b" ++ String.intercalate ", " (entries.map fun p => p.1 ++ ": " ++ pyStrAux p.2) ++ "\x7d"
  | .callable n => "<function " ++ n ++ ">"
where
  /-- Inner rendering of container elements (approximates Python `repr`). -/
  pyStrAux : Value → String
  | .str s => "\x27" ++ s ++ "\x27"
  | .none => "None"
  | .bool true => "True"
  | .bool false => "False"
  | .int n => toString n
  | _ => "..."

/-- Python `iter(value)` as far as `ForDirective` needs it: lists iterate
their items, strings their characters, dicts their keys, tuples their
components; everything else raises `TypeError` (`Option.none`). -/
def pyIter : Value → Option (List Value)
  | .list l => some l
  | .str s => some (s.data.map fun c => .str (String.singleton c))
  | .pair a b => some [a, b]
  | .dict d => some (d.map fun p => .str p.1)
  | _ => Option.none

/-- Python `value[idx]` as used by the loop-target destructuring of
`ForDirective`; out-of-range or non-indexable raises (`Option.none`). -/
def pyIndex : Value → Nat → Option Value
  | .list l, i => l.get? i
  | .pair a _, 0 => some a
  | .pair _ b, 1 => some b
  | .str s, i => (s.data.get? i).map fun c => .str (String.singleton c)
  | _, _ => Option.none

/-! ### Context (`Context` in the source)

A scope frame is a Python dict from names to values, modelled as an
association list whose lookup returns the first matching key. -/

/-- One scope frame: a name-to-value mapping. -/
abbrev Frame := List (String × Value)

/-- Dict lookup: first binding of the key, if any. -/
def frameGet (f : Frame) (k : String) : Option Value :=
  match f with
  | [] => Option.none
  | (k1, v) :: rest => if k1 = k then some v else frameGet rest k

/-- Dict membership (`key in frame`). -/
def frameHas (f : Frame) (k : String) : Bool :=
  match f with
  | [] => false
  | (k1, _) :: rest => k1 = k || frameHas rest k

/-- Dict assignment `frame[k] = v`: overwrite the existing binding or append. -/
def frameSet (f : Frame) (k : String) (v : Value) : Frame :=
  match f with
  | [] => [(k, v)]
  | (k1, v1) :: rest => if k1 = k then (k, v) :: rest else (k1, v1) :: frameSet rest k v

/-- Dict removal `d.pop(k, ...)`: drop the first binding of `k`. -/
def frameErase (f : Frame) (k : String) : Frame :=
  match f with
  | [] => []
  | (k1, v1) :: rest => if k1 = k then rest else (k1, v1) :: frameErase rest k

/-- `Context`: a stack of scope frames; index 0 is the top (the source pushes
with `self.stack.insert(0, data)` and scans from index 0). -/
structure Ctxt where
  stack : List Frame

/-- `Context.get`: scan frames top to bottom, return the first frame's value
for the key; a miss everywhere yields Python `None` (the function falls off
the end without returning). -/
def Ctxt.get (c : Ctxt) (k : String) : Value :=
  go c.stack
where
  /-- Frame-stack scan for `Context.get`. -/
  go : List Frame → Value
  | [] => Value.none
  | f :: rest => if frameHas f k then (frameGet f k).getD Value.none else go rest

/-- Like `Ctxt.get` but distinguishing a genuine miss (`Option.none`: the name
is bound in no frame) from a binding to `None`.  This is what the external
expression evaluator's "undefined" sentinel observes. -/
def Ctxt.lookup (c : Ctxt) (k : String) : Option Value :=
  go c.stack
where
  /-- Frame-stack scan for `Ctxt.lookup`. -/
  go : List Frame → Option Value
  | [] => Option.none
  | f :: rest => if frameHas f k then some ((frameGet f k).getD Value.none) else go rest

/-- `Context.push(**data)`: insert a new top frame (`stack.insert(0, data)`). -/
def Ctxt.push (c : Ctxt) (f : Frame) : Ctxt :=
  ⟨f :: c.stack⟩

/-- `Context.pop()`: `assert self.stack` then `self.stack.pop(0)`.  The
assertion fires only when the stack is empty *before* the pop
(`Option.none`); otherwise the top frame is removed, even when that leaves
the stack empty. -/
def Ctxt.pop (c : Ctxt) : Option Ctxt :=
  match c.stack with
  | [] => Option.none
  | _ :: rest => some ⟨rest⟩

/-- `Context.__setitem__`: write into the top frame `self.stack[0]`;
`Option.none` models the `IndexError` on an empty stack. -/
def Ctxt.set (c : Ctxt) (k : String) (v : Value) : Option Ctxt :=
  match c.stack with
  | [] => Option.none
  | f :: rest => some ⟨frameSet f k v :: rest⟩

/-- `Context(**data)`: a fresh context holds a single base frame. -/
def mkCtxt (f : Frame) : Ctxt :=
  ⟨[f]⟩

/-! ### Expressions

Modelled from the spec: the external expression evaluator (`markup.eval`)
compiles a source string into a callable `evaluate(context, default=None)`.
The engine itself only hands the source string over, so a compiled
`Expression` is represented by its source.  Evaluation is modelled for the
fragment the claims need — a bare variable name looked up in the context;
a lookup miss resolves to the undefined sentinel, surfaced as the supplied
default. -/
abbrev ExprSrc := String

/-! Character-list implementations of the Python string operations the
parser needs (`str.strip`, `str.split`); kept executable down to the
kernel. -/

/-- Python `str.strip()`: drop leading and trailing whitespace. -/
def pyStrip (s : String) : String :=
  String.mk (((s.data.dropWhile Char.isWhitespace).reverse.dropWhile Char.isWhitespace).reverse)

/-- Whether `sep` is a prefix of `l`. -/
def listStartsWith : List Char → List Char → Bool
  | [], _ => true
  | _ :: _, [] => false
  | p :: ps, c :: cs => p = c && listStartsWith ps cs

/-- First occurrence of `sep` in `l`: `(before, after)`; `Option.none` when
`sep` does not occur (or is empty). -/
def findSub (sep : List Char) : List Char → Option (List Char × List Char)
  | [] => Option.none
  | c :: rest =>
    if sep ≠ [] && listStartsWith sep (c :: rest) then
      some ([], (c :: rest).drop sep.length)
    else
      (findSub sep rest).map fun p => (c :: p.1, p.2)

/-- Python `s.split(sep, 1)`: the text before and after the first occurrence
of `sep`; `Option.none` when `sep` does not occur. -/
def splitOn1 (s sep : String) : Option (String × String) :=
  (findSub sep.data s.data).map fun p => (String.mk p.1, String.mk p.2)

/-- The splitting loop of Python `s.split(sep)` (fuel bounds the number of
separators; callers supply more than the text length). -/
def splitOnLGo (sep : List Char) : Nat → List Char → List (List Char)
  | 0, l => [l]
  | fuel + 1, l =>
    match findSub sep l with
    | Option.none => [l]
    | some (pre, rest) => pre :: splitOnLGo sep fuel rest

/-- Python `s.split(sep)` for a non-empty separator. -/
def splitOnS (s sep : String) : List String :=
  (splitOnLGo sep.data (s.data.length + 1) s.data).map String.mk

/-- Modelled from the spec: evaluation of a compiled expression against a
context, `Option.none` meaning "undefined". -/
def evalOpt (e : ExprSrc) (c : Ctxt) : Option Value :=
  Ctxt.lookup c e

/-- Modelled from the spec: `Expression.evaluate(ctxt, default)` — the value
if defined, else the default. -/
def evaluate (e : ExprSrc) (c : Ctxt) (dfl : Value) : Value :=
  (evalOpt e c).getD dfl

/-! ### Interpolation (`Template._interpolate` and its two regexes)

`_FULL_EXPR_RE  = (?<!\$)\$\x7b(.+?)\x7d`  (braced form, non-greedy body)
`_SHORT_EXPR_RE = (?<!\$)\$([a-zA-Z][a-zA-Z0-9_\.]*)`  (short bareword form)

`re.split` with one capture group alternates literal residue and captured
group; both scanners are implemented directly over character lists. -/

/-- Identifier continuation characters of the short form: `[a-zA-Z0-9_\.]`. -/
def isIdentCh (c : Char) : Bool :=
  c.isAlpha || c.isDigit || c = '_' || c = '.'

/-- Scan for the first unescaped `\x7d` closing a braced expression: splits
`l` as `body ++ rbrace ++ rest`, failing at a newline (the regex `.` does not
match newlines) or at end of input. -/
def scanRBrace : List Char → Option (List Char × List Char)
  | [] => Option.none
  | c :: rest =>
    if c = '\x7d' then some ([], rest)
    else if c = '\n' then Option.none
    else (scanRBrace rest).map fun p => (c :: p.1, p.2)

/-- The non-greedy body `(.+?)\x7d` after `$\x7b`: at least one non-newline
character, then everything up to the first closing brace. -/
def grabBody (l : List Char) : Option (List Char × List Char) :=
  match l with
  | [] => Option.none
  | c :: rest =>
    if c = '\n' then Option.none
    else (scanRBrace rest).map fun p => (c :: p.1, p.2)

/-- Leftmost match of the braced form: returns
`(residue before the match, captured body, rest after the match)`.
`prev` is the character before the scan position, for the `(?<!\$)`
lookbehind. -/
def findFull (prev : Option Char) : List Char → Option (List Char × List Char × List Char)
  | [] => Option.none
  | c :: rest =>
    if c = '$' && prev != some '$' then
      match rest with
      | '\x7b' :: rest2 =>
        match grabBody rest2 with
        | some (body, rest3) => some ([], body, rest3)
        | Option.none => (findFull (some c) rest).map fun t => (c :: t.1, t.2.1, t.2.2)
      | _ => (findFull (some c) rest).map fun t => (c :: t.1, t.2.1, t.2.2)
    else (findFull (some c) rest).map fun t => (c :: t.1, t.2.1, t.2.2)

/-- Leftmost match of the short bareword form `$identifier(.identifier)*`. -/
def findShort (prev : Option Char) : List Char → Option (List Char × List Char × List Char)
  | [] => Option.none
  | c :: rest =>
    if c = '$' && prev != some '$' then
      match rest with
      | c2 :: rest2 =>
        if c2.isAlpha then
          some ([], c2 :: rest2.takeWhile isIdentCh, rest2.dropWhile isIdentCh)
        else (findShort (some c) rest).map fun t => (c :: t.1, t.2.1, t.2.2)
      | [] => (findShort (some c) rest).map fun t => (c :: t.1, t.2.1, t.2.2)
    else (findShort (some c) rest).map fun t => (c :: t.1, t.2.1, t.2.2)

theorem scanRBrace_length {l m rest : List Char} (h : scanRBrace l = some (m, rest)) :
    rest.length < l.length := by
  induction l generalizing m rest with
  | nil => simp [scanRBrace] at h
  | cons c tail ih =>
    simp only [scanRBrace] at h
    split at h
    · simp only [Option.some.injEq] at h
      cases h
      simp
    · split at h
      · simp at h
      · cases hrec : scanRBrace tail with
        | none => rw [hrec] at h; simp at h
        | some p =>
          obtain ⟨m1, r1⟩ := p
          rw [hrec] at h
          simp at h
          obtain ⟨h1, h2⟩ := h
          subst h2
          exact Nat.lt_succ_of_lt (ih hrec)

theorem grabBody_length {l b rest : List Char} (h : grabBody l = some (b, rest)) :
    rest.length < l.length := by
  match l with
  | [] => simp [grabBody] at h
  | c :: tail =>
    simp only [grabBody] at h
    split at h
    · simp at h
    · cases hrec : scanRBrace tail with
      | none => rw [hrec] at h; simp at h
      | some p =>
        obtain ⟨m1, r1⟩ := p
        rw [hrec] at h
        simp at h
        obtain ⟨h1, h2⟩ := h
        subst h2
        exact Nat.lt_succ_of_lt (scanRBrace_length hrec)

theorem dropWhile_length_le (p : Char → Bool) (l : List Char) :
    (l.dropWhile p).length ≤ l.length := by
  induction l with
  | nil => simp
  | cons c tail ih =>
    by_cases hp : p c
    · simpa [List.dropWhile, hp] using Nat.le_succ_of_le ih
    · simp [List.dropWhile, hp]

theorem findFull_length : ∀ {l : List Char} {prev : Option Char} {pre body rest : List Char},
    findFull prev l = some (pre, body, rest) → rest.length < l.length := by
  intro l
  induction l with
  | nil => intro prev pre body rest h; simp [findFull] at h
  | cons c tail ih =>
    intro prev pre body rest h
    have step : ∀ (pv : Option Char),
        ((findFull pv tail).map fun t => (c :: t.1, t.2.1, t.2.2)) = some (pre, body, rest) →
        rest.length < (c :: tail).length := by
      intro pv hm
      cases hrec : findFull pv tail with
      | none => rw [hrec] at hm; simp at hm
      | some t =>
        obtain ⟨p1, b1, r1⟩ := t
        rw [hrec] at hm
        simp at hm
        obtain ⟨h1, h2, h3⟩ := hm
        subst h3
        exact Nat.lt_succ_of_lt (ih hrec)
    simp only [findFull] at h
    split at h
    · split at h
      · rename_i rest2
        split at h
        · rename_i b1 r3 hg
          simp at h
          obtain ⟨h1, h2, h3⟩ := h
          subst h3
          have hb := grabBody_length hg
          simp only [List.length_cons]
          omega
        · exact step _ h
      · exact step _ h
    · exact step _ h

theorem findShort_length : ∀ {l : List Char} {prev : Option Char} {pre ident rest : List Char},
    findShort prev l = some (pre, ident, rest) → rest.length < l.length := by
  intro l
  induction l with
  | nil => intro prev pre ident rest h; simp [findShort] at h
  | cons c tail ih =>
    intro prev pre ident rest h
    have step : ∀ (pv : Option Char),
        ((findShort pv tail).map fun t => (c :: t.1, t.2.1, t.2.2)) = some (pre, ident, rest) →
        rest.length < (c :: tail).length := by
      intro pv hm
      cases hrec : findShort pv tail with
      | none => rw [hrec] at hm; simp at hm
      | some t =>
        obtain ⟨p1, b1, r1⟩ := t
        rw [hrec] at hm
        simp at hm
        obtain ⟨h1, h2, h3⟩ := hm
        subst h3
        exact Nat.lt_succ_of_lt (ih hrec)
    simp only [findShort] at h
    split at h
    · split at h
      · rename_i c2 rest2
        split at h
        · simp at h
          obtain ⟨h1, h2, h3⟩ := h
          subst h3
          have hd := dropWhile_length_le isIdentCh rest2
          simp only [List.length_cons]
          omega
        · exact step _ h
      · exact step _ h
    · exact step _ h

/-- `re.split` for the braced form: alternating residue / captured body,
scanning left to right (`prev` starts as the character before the region,
and continues as the closing brace of the previous match).  The fuel only
bounds the number of matches; `splitFull` supplies more fuel than the text
length and `splitFullGo_fuel` shows any such fuel gives the same result. -/
def splitFullGo : Nat → Option Char → List Char → List (List Char)
  | 0, _, l => [l]
  | fuel + 1, prev, l =>
    match findFull prev l with
    | Option.none => [l]
    | some (pre, body, rest) => pre :: body :: splitFullGo fuel (some '\x7d') rest

/-- `_FULL_EXPR_RE.split(text)`. -/
def splitFull (prev : Option Char) (l : List Char) : List (List Char) :=
  splitFullGo (l.length + 1) prev l

/-- `re.split` for the short bareword form (fuel as in `splitFullGo`). -/
def splitShortGo : Nat → Option Char → List Char → List (List Char)
  | 0, _, l => [l]
  | fuel + 1, prev, l =>
    match findShort prev l with
    | Option.none => [l]
    | some (pre, ident, rest) => pre :: ident :: splitShortGo fuel (some (ident.getLastD 'a')) rest

/-- `_SHORT_EXPR_RE.split(text)`. -/
def splitShort (prev : Option Char) (l : List Char) : List (List Char) :=
  splitShortGo (l.length + 1) prev l

theorem splitFullGo_fuel : ∀ (fuel fuel2 : Nat) (prev : Option Char) (l : List Char),
    l.length < fuel → l.length < fuel2 → splitFullGo fuel prev l = splitFullGo fuel2 prev l := by
  intro fuel
  induction fuel with
  | zero => intro fuel2 prev l h; omega
  | succ n ih =>
    intro fuel2 prev l h h2
    match fuel2, h2 with
    | m + 1, _ =>
      simp only [splitFullGo]
      cases hf : findFull prev l with
      | none => rfl
      | some t =>
        obtain ⟨pre, body, rest⟩ := t
        have hr := findFull_length hf
        simp only []
        rw [ih m (some '\x7d') rest (by omega) (by omega)]

theorem splitShortGo_fuel : ∀ (fuel fuel2 : Nat) (prev : Option Char) (l : List Char),
    l.length < fuel → l.length < fuel2 → splitShortGo fuel prev l = splitShortGo fuel2 prev l := by
  intro fuel
  induction fuel with
  | zero => intro fuel2 prev l h; omega
  | succ n ih =>
    intro fuel2 prev l h h2
    match fuel2, h2 with
    | m + 1, _ =>
      simp only [splitShortGo]
      cases hf : findShort prev l with
      | none => rfl
      | some t =>
        obtain ⟨pre, ident, rest⟩ := t
        have hr := findShort_length hf
        simp only []
        rw [ih m (some (ident.getLastD 'a')) rest (by omega) (by omega)]

/-- `group.replace(\x27$$\x27, \x27$\x27)`: left-to-right, non-overlapping. -/
def replaceDD : List Char → List Char
  | '$' :: '$' :: rest => '$' :: replaceDD rest
  | c :: rest => c :: replaceDD rest
  | [] => []

/-- The two interpolation patterns, in the order of the source's shared
`patterns` list. -/
inductive IPat where
  | full
  | short
deriving DecidableEq

/-- Dispatch `pattern.split(text)` for the two patterns. -/
def splitPat : IPat → List Char → List (List Char)
  | .full, l => splitFull Option.none l
  | .short, l => splitShort Option.none l

/-- One interpolated fragment: a literal text or a compiled expression, each
tagged with the position of the containing text event (the column is not
advanced per fragment). -/
inductive Frag where
  | ftext (s : String) (pos : Pos)
  | fexpr (src : String) (pos : Pos)
deriving DecidableEq

/-- The inner recursive generator of `Template._interpolate`, with the shared
mutable `patterns` list threaded as state: the callee pops the head pattern
and that pop stays visible to the caller's remaining loop iterations.  The
fuel argument only bounds the recursion depth; `_interpolate` calls it with
fuel equal to the pattern-list length, which the recursion never exceeds
(each recursive call consumes one pattern). -/
def interpGo (pos : Pos) : Nat → List IPat → List Char → (List Frag × List IPat)
  | 0, pats, _ => ([], pats)
  | _ + 1, [], _ => ([], [])
  | fuel + 1, p :: pats, textC =>
    (splitPat p textC).enum.foldl
      (fun acc pair =>
        if pair.1 % 2 = 1 then
          (acc.1 ++ [Frag.fexpr (String.mk pair.2) pos], acc.2)
        else if pair.2 ≠ [] then
          if acc.2 ≠ [] then
            let r := interpGo pos fuel acc.2 pair.2
            (acc.1 ++ r.1, r.2)
          else
            (acc.1 ++ [Frag.ftext (String.mk (replaceDD pair.2)) pos], acc.2)
        else acc)
      ([], pats)

/-- `Template._interpolate(text, lineno, offset)`: split on the braced form
first, then rescan residues for the short form, yielding TEXT/EXPR
fragments. -/
def interpolate (s : String) (pos : Pos) : List Frag :=
  (interpGo pos 2 [IPat.full, IPat.short] s.data).1

/-! ### Events and directives

The compiled stream is a list of events; a `SUB` event carries a directive
list and a nested substream, so events and directives are mutually
recursive.  `DefDirective` and `MatchDirective` store their captured
substream in a mutable `self.stream` attribute, modelled as the `captured`
field, updated by returning a new `Dir` from every application.  Attribute
values of compiled start events are the interpolated fragment lists the
parser stores in place of the raw strings. -/

/-- The value of an ordinary attribute on a compiled start event: the parser
stores the interpolated fragment list; `py:attrs` later overwrites values
with plain strings. -/
inductive AttrVal where
  | frags (l : List Frag)
  | plain (s : String)
deriving DecidableEq

mutual
/-- The eight registered directive classes.  Each holds its compiled
expression (`Option`: `value and Expression(value) or None` leaves it `None`
for an empty attribute value); `py:def` additionally holds the parsed
signature and `py:for` the parsed loop targets. -/
inductive Dir where
  | defD (dname : String) (args : List String) (dfl : List (String × Value)) (captured : List Event)
  | matchD (path : String) (captured : List Event)
  | forD (targets : List String) (e : Option ExprSrc)
  | ifD (e : Option ExprSrc)
  | replaceD (e : Option ExprSrc)
  | contentD (e : Option ExprSrc)
  | attrsD (e : Option ExprSrc)
  | stripD (e : Option ExprSrc)

/-- Compiled stream events: the externally produced structural kinds plus the
engine's own `EXPR` and `SUB` kinds. -/
inductive Event where
  | start (tag : QName) (attrib : List (QName × AttrVal)) (pos : Pos)
  | stop (tag : QName) (pos : Pos)
  | text (s : String) (pos : Pos)
  | startNS (pfx : String) (uri : String) (pos : Pos)
  | endNS (pfx : String) (pos : Pos)
  | other (d : String) (pos : Pos)
  | exprEv (e : Option ExprSrc) (pos : Pos)
  | sub (dirs : List Dir) (body : List Event) (pos : Pos)
end

/-- The `(line, column)` of an event. -/
def Event.pos : Event → Pos
  | .start _ _ p => p
  | .stop _ p => p
  | .text _ p => p
  | .startNS _ _ p => p
  | .endNS _ p => p
  | .other _ p => p
  | .exprEv _ p => p
  | .sub _ _ p => p

/-- The canonical priority index of a directive: its class's position in
`Template.directives` (`_dir_order`). -/
def dirOrderIdx : Dir → Nat
  | .defD .. => 0
  | .matchD .. => 1
  | .forD .. => 2
  | .ifD .. => 3
  | .replaceD .. => 4
  | .contentD .. => 5
  | .attrsD .. => 6
  | .stripD .. => 7

/-! ### The directive `apply(stream, ctxt)` implementations -/

/-- Modelled from the spec: `Attributes.remove` of `markup.core` — drop the
attribute with the given (local) name. -/
def attribRemove (a : List (QName × AttrVal)) (k : String) : List (QName × AttrVal) :=
  a.filter fun p => p.1.localname ≠ k

/-- Modelled from the spec: `Attributes.set` of `markup.core` — replace the
value of an existing attribute or append a new one. -/
def attribSet (a : List (QName × AttrVal)) (k : String) (v : String) :
    List (QName × AttrVal) :=
  match a with
  | [] => [(⟨Option.none, k⟩, AttrVal.plain v)]
  | (n, w) :: rest =>
    if n.localname = k then (n, AttrVal.plain v) :: rest
    else (n, w) :: attribSet rest k v

/-- The key/value pairs `AttrsDirective` iterates: a list is used as-is as
ordered pairs (each item must unpack as a 2-tuple), anything else is assumed
to be a dict and `items()` is taken; a non-dict raises (`Option.none`). -/
def toPairs : Value → Option (List (String × Value))
  | .list items =>
    items.mapM fun it =>
      match it with
      | .pair (.str k) v => some (k, v)
      | _ => Option.none
  | .dict d => some d
  | _ => Option.none

/-- The merge loop of `AttrsDirective.__call__` (operating on the copy
`Attributes(attrib[:])`): a `None` value removes the attribute, any other
value is set to `unicode(value).strip()`. -/
def mergeAttrs (a : List (QName × AttrVal)) (prs : List (String × Value)) :
    List (QName × AttrVal) :=
  prs.foldl
    (fun acc p =>
      match p.2 with
      | .none => attribRemove acc p.1
      | v => attribSet acc p.1 (pyStrip (pyStr v)))
    a

/-- `AttrsDirective.__call__`: evaluate the expression; if truthy merge the
pairs into the start event's attributes, else leave them unchanged; the rest
of the stream passes through.  An empty stream ends the generator silently;
a first event that is not a start tag fails to unpack (`Option.none`). -/
def attrsApply (e : ExprSrc) (stream : List Event) (ctxt : Ctxt) : Option (List Event) :=
  match stream with
  | [] => some []
  | .start tag attrib pos :: rest =>
    let attrs := evaluate e ctxt Value.none
    if truthy attrs then
      match toPairs attrs with
      | some prs => some (.start tag (mergeAttrs attrib prs) pos :: rest)
      | Option.none => Option.none
    else some (.start tag attrib pos :: rest)
  | _ => Option.none

/-- `ContentDirective.__call__`: re-emit the start tag (only if the first
event is one), emit one EXPR event carrying the directive's expression at the
first event's position, then re-emit only the last remaining event (the
close tag); with no remaining events the generator ends after the EXPR. -/
def contentApply (e : Option ExprSrc) (stream : List Event) : List Event :=
  match stream with
  | [] => []
  | ev :: rest =>
    (match ev with
     | .start .. => [ev]
     | _ => []) ++ Event.exprEv e ev.pos :: (rest.getLast?).toList

/-- `ReplaceDirective.__call__`: one EXPR event in place of everything; an
empty stream ends the generator before yielding. -/
def replaceApply (e : Option ExprSrc) (stream : List Event) : List Event :=
  match stream with
  | [] => []
  | ev :: _ => [Event.exprEv e ev.pos]

/-- `StripDirective.__call__`: with no value attribute strip unconditionally;
otherwise strip iff the expression is truthy.  Stripping drops the first
event and the last event (the generator holds one event back and stops when
`stream.next()` ends). -/
def stripApply (e : Option ExprSrc) (stream : List Event) (ctxt : Ctxt) : List Event :=
  let strip :=
    match e with
    | some src => truthy (evaluate src ctxt Value.none)
    | Option.none => true
  if strip then (stream.drop 1).dropLast else stream

/-- The scope built for one loop item: `item = [item]` for a single target,
then `scope[name] = item[idx]` for each target. -/
def buildForScope (targets : List String) (item : Value) : Option Frame :=
  let item2 := if targets.length = 1 then Value.list [item] else item
  targets.enum.foldlM (fun (sc : Frame) p => (pyIndex item2 p.1).map (frameSet sc p.2)) []

/-- The loop-body replay of `ForDirective.__call__`: for each item bind the
loop targets (a single target receives the whole item, several targets
index into it), push the scope frame, replay the buffered stream, pop. -/
def forLoop (targets : List String) (stream : List Event) :
    Ctxt → List Value → Option (List Event × Ctxt)
  | c, [] => some ([], c)
  | c, item :: rest =>
    match buildForScope targets item with
    | Option.none => Option.none
    | some scope =>
      let c2 := c.push scope
      let out1 := stream
      match c2.pop with
      | Option.none => Option.none
      | some c3 =>
        match forLoop targets stream c3 rest with
        | Option.none => Option.none
        | some (out, c4) => some (out1 ++ out, c4)

/-- `ForDirective.__call__`: evaluate the expression with default `[]`; if
the result is not `None`, buffer the stream and replay it once per item of
the iterable. -/
def forApply (targets : List String) (e : ExprSrc) (stream : List Event) (ctxt : Ctxt) :
    Option (List Event × Ctxt) :=
  let iterable := evaluate e ctxt (Value.list [])
  match iterable with
  | .none => some ([], ctxt)
  | v => do
    let items ← pyIter v
    forLoop targets stream ctxt items

/-- One directive application `directive(iter(substream), ctxt)`: returns the
output stream, the updated directive instance (`py:def` / `py:match`
overwrite their captured `self.stream` on every call) and the updated
context (`py:def` binds the template function into the current top frame). -/
def applyDir (d : Dir) (stream : List Event) (ctxt : Ctxt) :
    Option (List Event × Dir × Ctxt) :=
  match d with
  | .defD n args dfl _ => do
    let c2 ← ctxt.set n (Value.callable n)
    pure ([], .defD n args dfl stream, c2)
  | .matchD path _ => some ([], .matchD path stream, ctxt)
  | .forD targets oe => do
    let e ← oe
    let (out, c2) ← forApply targets e stream ctxt
    pure (out, d, c2)
  | .ifD oe => do
    let e ← oe
    pure (if truthy (evaluate e ctxt Value.none) then stream else [], d, ctxt)
  | .replaceD oe =>
    -- `stream.next()` is only used for its position; the expression may be None
    some (replaceApply oe stream, d, ctxt)
  | .contentD oe => some (contentApply oe stream, d, ctxt)
  | .attrsD oe => do
    let e ← oe
    let s2 ← attrsApply e stream ctxt
    pure (s2, d, ctxt)
  | .stripD oe => some (stripApply oe stream ctxt, d, ctxt)

/-- The chain `for directive in directives: substream = directive(...)`:
apply the directives left to right, each wrapping the previous result,
collecting the updated instances. -/
def applyDirs : List Dir → List Event → Ctxt → Option (List Event × List Dir × Ctxt)
  | [], stream, ctxt => some (stream, [], ctxt)
  | d :: rest, stream, ctxt => do
    let (s2, d2, c2) ← applyDir d stream ctxt
    let (s3, rest2, c3) ← applyDirs rest s2 c2
    pure (s3, d2 :: rest2, c3)

/-! ### The recursive transform of `Template.generate` -/

/-- Modelled from the spec: the `EvalFilter` pre-filter — it turns each EXPR
event into a TEXT event by evaluating the compiled expression against the
context and re-serialising the result; every other event passes through.
The lazy filter chain delivers events one at a time, so the filter sees the
context as of the moment the consuming loop pulls the event. -/
def evalFilterEvent (ev : Event) (ctxt : Ctxt) : Event :=
  match ev with
  | .exprEv (some e) pos => .text (pyStr (evaluate e ctxt Value.none)) pos
  | _ => ev

/-- One iteration of the event loop of `_transform`, accumulating
`(output so far, updated stream so far, context)`.  `deeper` is the
recursive `_transform` call applied to a SUB node's directive-transformed
substream (its own updated-stream component concerns only transient
directive output and is dropped). -/
def transformStep (deeper : List Event → Ctxt → Option (List Event × List Event × Ctxt))
    (acc : List Event × List Event × Ctxt) (ev0 : Event) :
    Option (List Event × List Event × Ctxt) :=
  match evalFilterEvent ev0 acc.2.2 with
  | .sub dirs body pos =>
    match applyDirs dirs.reverse body acc.2.2 with
    | Option.none => Option.none
    | some (sstream, rdirs2, c2) =>
      match deeper sstream c2 with
      | Option.none => Option.none
      | some (out1, _, c3) =>
        some (acc.1 ++ out1, acc.2.1 ++ [Event.sub rdirs2 body pos], c3)
  | evf => some (acc.1 ++ [evf], acc.2.1 ++ [ev0], acc.2.2)

/-- The recursive `_transform` of `Template.generate`, with the in-place
mutations threaded as state: the result is `(output, updated stream, updated
context)`, where the updated stream records the `directives.reverse()`
mutation and the directives' own attribute updates that persist inside
`Template.stream` between `generate` calls.  `fuel` bounds the SUB-expansion
depth (the lazy original recurses as deep as directive output nests);
`Option.none` covers both exhausted fuel and Python-level errors from
directive application.  The runtime-filter list is modelled for templates
that registered no match filters. -/
def transformGo : Nat → List Event → Ctxt → Option (List Event × List Event × Ctxt)
  | fuel, events, ctxt =>
    events.foldlM
      (transformStep
        (match fuel with
         | 0 => fun _ _ => Option.none
         | fuel2 + 1 => transformGo fuel2))
      ([], [], ctxt)

/-- `Template.generate`: the recursive transform followed by the post-filter
chain `w` (the external whitespace filter); the updated compiled stream and
context are returned alongside, as the mutations persist in the template
object. -/
def generateT (fuel : Nat) (stream : List Event) (ctxt : Ctxt)
    (w : List Event → List Event) : Option (List Event × List Event × Ctxt) :=
  (transformGo fuel stream ctxt).map fun r => (w r.1, r.2.1, r.2.2)

/-- Squeeze runs of whitespace characters to a single space (fuel bounds the
step count; `collapseWs` supplies enough for the input length). -/
def collapseWsGo : Nat → List Char → List Char
  | 0, l => l
  | fuel + 1, l =>
    match l with
    | [] => []
    | c :: rest =>
      if c.isWhitespace then ' ' :: collapseWsGo fuel (rest.dropWhile Char.isWhitespace)
      else c :: collapseWsGo fuel rest

/-- Squeeze runs of whitespace characters to a single space. -/
def collapseWs (l : List Char) : List Char :=
  collapseWsGo (l.length + 1) l

/-- Modelled from the spec: the external `WhitespaceFilter` post-filter —
purely cosmetic collapsing of whitespace runs inside text events. -/
def wsFilter (events : List Event) : List Event :=
  events.map fun ev =>
    match ev with
    | .text s pos => .text (String.mk (collapseWs s.data)) pos
    | e => e

/-! ### The parser (`Template.parse`) -/

/-- Raw structural events as produced by the external `XMLParser`: like the
compiled events but with raw string attribute values and without the
engine-internal EXPR/SUB kinds. -/
inductive InEvent where
  | start (tag : QName) (attrib : List (QName × String)) (pos : Pos)
  | stop (tag : QName) (pos : Pos)
  | text (s : String) (pos : Pos)
  | startNS (pfx : String) (uri : String) (pos : Pos)
  | endNS (pfx : String) (pos : Pos)
  | other (d : String) (pos : Pos)
deriving DecidableEq

/-- Association-list lookup for dict-like parser state. -/
def assocFind {κ α : Type} [DecidableEq κ] (m : List (κ × α)) (k : κ) : Option α :=
  match m with
  | [] => Option.none
  | (k1, v) :: rest => if k1 = k then some v else assocFind rest k

/-- Association-list assignment (overwrite or append), dict semantics. -/
def assocSet {κ α : Type} [DecidableEq κ] (m : List (κ × α)) (k : κ) (v : α) : List (κ × α) :=
  match m with
  | [] => [(k, v)]
  | (k1, v1) :: rest => if k1 = k then (k, v) :: rest else (k1, v1) :: assocSet rest k v

/-- Association-list removal (`del` / `dict.pop`). -/
def assocErase {κ α : Type} [DecidableEq κ] (m : List (κ × α)) (k : κ) : List (κ × α) :=
  match m with
  | [] => []
  | (k1, v1) :: rest => if k1 = k then rest else (k1, v1) :: assocErase rest k

/-- A literal/expression fragment appended to the compiled stream by the
TEXT branch of `Template.parse`. -/
def fragToEvent : Frag → Event
  | .ftext s p => .text s p
  | .fexpr src p => .exprEv (some src) p

/-- `value and Expression(value) or None` of `Directive.__init__`. -/
def optExpr (value : String) : Option ExprSrc :=
  if value.isEmpty then Option.none else some value

/-- Modelled from the spec: the signature parsing of `DefDirective.__init__`
(done in the source with the external `compiler` module) — function name,
positional parameter names, and literal default values. -/
def parseDefSig (value : String) : String × List String × List (String × Value) :=
  match splitOn1 value "(" with
  | Option.none => (pyStrip value, [], [])
  | some (n, restS) =>
    let inner := String.mk ((restS.data.reverse.dropWhile (fun c => c = ')')).reverse)
    let parts := if (pyStrip inner).isEmpty then [] else splitOnS inner ","
    let parsed := parts.foldl
      (fun (acc : List String × List (String × Value)) part =>
        match splitOn1 part "=" with
        | Option.none => (acc.1 ++ [pyStrip part], acc.2)
        | some (a, d) =>
          let dflRaw := pyStrip d
          let dflVal := String.mk
            (((dflRaw.data.dropWhile (fun c => c = '\x27')).reverse.dropWhile
                (fun c => c = '\x27')).reverse)
          (acc.1 ++ [pyStrip a], acc.2 ++ [(pyStrip a, Value.str dflVal)]))
      ([], [])
    (pyStrip n, parsed.1, parsed.2)

/-- The value parsing of `ForDirective.__init__`:
`targets, expr_source = value.split(' in ', 1)`; a value without the
membership keyword raises a `ValueError`. -/
def parseForValue (value : String) : Option (List String × String) :=
  match splitOn1 value " in " with
  | Option.none => Option.none
  | some (t, exprSource) =>
    some ((splitOnS t ",").map pyStrip, exprSource)

/-- The directive registry `Template._dir_by_name`: construct the directive
for a directive-namespace attribute; an unknown local name is a
`BadDirectiveError`, a malformed `py:for` value a `ValueError`.  A `py:match`
construction also reports the path it registers with the template's
runtime-filter list. -/
def dirFromName (localname value : String) : Except String (Dir × Option String) :=
  match localname with
  | "def" =>
    let sig := parseDefSig value
    .ok (.defD sig.1 sig.2.1 sig.2.2 [], Option.none)
  | "match" => .ok (.matchD value [], some value)
  | "for" =>
    match parseForValue value with
    | some p => .ok (.forD p.1 (optExpr p.2), Option.none)
    | Option.none => .error "ValueError: need more than 1 value to unpack"
  | "if" => .ok (.ifD (optExpr value), Option.none)
  | "replace" => .ok (.replaceD (optExpr value), Option.none)
  | "content" => .ok (.contentD (optExpr value), Option.none)
  | "attrs" => .ok (.attrsD (optExpr value), Option.none)
  | "strip" => .ok (.stripD (optExpr value), Option.none)
  | other => .error ("Bad directive " ++ other)

/-- Stable insertion of a directive into a list sorted by canonical priority
index (`directives.sort` with `cmp` on `_dir_order.index`). -/
def insertDir (d : Dir) : List Dir → List Dir
  | [] => [d]
  | d1 :: rest =>
    if dirOrderIdx d ≤ dirOrderIdx d1 then d :: d1 :: rest else d1 :: insertDir d rest

/-- Stable sort of a directive list into canonical priority order. -/
def sortDirs (ds : List Dir) : List Dir :=
  ds.foldr insertDir []

/-- One iteration of the attribute-partitioning loop of the START branch of
`Template.parse`: a directive-namespace attribute is compiled through the
registry, an ordinary attribute's value is interpolated. -/
def parseAttrStep (pos : Pos) (acc : List (Dir × Option String) × List (QName × AttrVal))
    (p : QName × String) : Except String (List (Dir × Option String) × List (QName × AttrVal)) :=
  if p.1.ns = some NAMESPACE then do
    let d ← dirFromName p.1.localname p.2
    pure (acc.1 ++ [d], acc.2)
  else
    pure (acc.1, acc.2 ++ [(p.1, AttrVal.frags (interpolate p.2 pos))])

/-- Parser state: the compiled stream so far, the pending-directive map
keyed by `(depth, tag)`, the recorded directive-namespace prefixes, the
element depth, and the match-filter paths registered so far. -/
structure PState where
  stream : List Event
  dirmap : List ((Int × QName) × (List Dir × Nat))
  nsPfx : List (String × String)
  depth : Int
  filters : List String

/-- The single forward pass of `Template.parse` over the events produced by
the external markup parser. -/
def parseGo (st : PState) : List InEvent → Except String PState
  | [] => .ok st
  | ev :: rest =>
    match ev with
    | .startNS pfx uri pos =>
      if uri = NAMESPACE then
        parseGo { st with nsPfx := assocSet st.nsPfx pfx uri } rest
      else
        parseGo { st with stream := st.stream ++ [.startNS pfx uri pos] } rest
    | .endNS pfx pos =>
      if (assocFind st.nsPfx pfx).isSome then
        parseGo { st with nsPfx := assocErase st.nsPfx pfx } rest
      else
        parseGo { st with stream := st.stream ++ [.endNS pfx pos] } rest
    | .start tag attrib pos => do
      let parts ← attrib.foldlM (parseAttrStep pos) ([], [])
      let directives := parts.1.map Prod.fst
      let newFilters := parts.1.filterMap Prod.snd
      let st2 :=
        if directives.isEmpty then st
        else { st with
               dirmap := assocSet st.dirmap (st.depth, tag)
                           (sortDirs directives, st.stream.length) }
      parseGo { st2 with
                stream := st2.stream ++ [.start tag parts.2 pos],
                depth := st2.depth + 1,
                filters := st2.filters ++ newFilters } rest
    | .stop tag pos =>
      let depth2 := st.depth - 1
      let stream2 := st.stream ++ [.stop tag pos]
      match assocFind st.dirmap (depth2, tag) with
      | some (directives, offset) =>
        let substream := stream2.drop offset
        let stream3 := stream2.take offset ++ [.sub directives substream pos]
        parseGo { st with
                  stream := stream3,
                  dirmap := assocErase st.dirmap (depth2, tag),
                  depth := depth2 } rest
      | Option.none =>
        parseGo { st with stream := stream2, depth := depth2 } rest
    | .text s pos =>
      parseGo { st with stream := st.stream ++ (interpolate s pos).map fragToEvent } rest
    | .other d pos =>
      parseGo { st with stream := st.stream ++ [.other d pos] } rest

/-- The initial parser state of a fresh `Template`. -/
def initPState : PState :=
  ⟨[], [], [], 0, []⟩

/-- `Template.parse` restricted to its result stream (`self.stream`). -/
def parseT (inp : List InEvent) : Except String (List Event) :=
  (parseGo initPState inp).map PState.stream

/-! ### `DefDirective._exec`: template-function invocation -/

/-- The argument-binding loop of `DefDirective._exec`: for each formal name,
consume the next positional argument if any are left; otherwise
`kwargs.pop(name, self.defaults.get(name))` — the named argument (removed
from the kwargs dict), falling back to the declared default, falling back to
`None`. -/
def buildScope (dfl : List (String × Value)) :
    List String → List Value → List (String × Value) → Frame → Frame
  | [], _, _, scope => scope
  | n :: ns, p :: ps, kw, scope => buildScope dfl ns ps kw (frameSet scope n p)
  | n :: ns, [], kw, scope =>
    match assocFind kw n with
    | some v => buildScope dfl ns [] (assocErase kw n) (frameSet scope n v)
    | Option.none => buildScope dfl ns [] kw (frameSet scope n ((assocFind dfl n).getD Value.none))

/-- `DefDirective._exec`: build the scope, push it, replay the captured
events, pop. -/
def execDef (d : Dir) (ctxt : Ctxt) (posArgs : List Value) (kwargs : List (String × Value)) :
    Option (List Event × Ctxt) :=
  match d with
  | .defD _ args dfl captured =>
    let scope := buildScope dfl args posArgs kwargs []
    let c2 := ctxt.push scope
    let out := captured
    (c2.pop).map fun c3 => (out, c3)
  | _ => Option.none

/-! ### The error translation of `Template.generate`

The `try/except SyntaxError` wrapped around the event loop of `_transform`
(the only `except` clause in `generate`).  A pull from the filtered stream
either delivers an event or raises; the loop remembers the position of the
last event it unpacked and the except clause turns a `SyntaxError` into a
`TemplateSyntaxError` carrying the template filename and that position
(plus the error's offset); any other exception propagates unchanged. -/

/-- The exceptions an expression evaluation can raise. -/
inductive PyErr where
  | syntaxError (msg : String) (offset : Option Nat)
  | runtimeError (msg : String)
deriving DecidableEq

/-- What `generate` lets escape to the caller. -/
inductive TErr where
  | wrapped (msg filename : String) (lineno offset : Nat)
  | runtime (msg : String)
  | unboundLocal
deriving DecidableEq

/-- Whether an escaped error is a position-wrapped `TemplateSyntaxError`. -/
def TErr.isWrapped : TErr → Bool
  | .wrapped .. => true
  | _ => false

/-- One pull from the filtered stream: an event, or an exception raised
while producing it. -/
inductive Pull where
  | ev (e : Event)
  | err (x : PyErr)

/-- The `except SyntaxError` clause: wrap using the position of the last
unpacked event (`pos` is unbound when the very first pull raises). -/
def wrapSyn (filename msg : String) (off : Option Nat) : Option Pos → TErr
  | some p => .wrapped msg filename p.1 (p.2 + off.getD 0)
  | Option.none => .unboundLocal

/-- The event loop of `_transform` with its `try/except SyntaxError`:
returns the events yielded before any failure, and the escaped error if
one occurred. -/
def transformErrLoop (filename : String) : Option Pos → List Pull → List Event × Option TErr
  | _, [] => ([], Option.none)
  | _, Pull.ev e :: rest =>
    let r := transformErrLoop filename (some e.pos) rest
    (e :: r.1, r.2)
  | posQ, Pull.err (PyErr.syntaxError msg off) :: _ =>
    ([], some (wrapSyn filename msg off posQ))
  | _, Pull.err (PyErr.runtimeError msg) :: _ => ([], some (TErr.runtime msg))

/-- The position of the last event of a stream, if any; else the given
prior position (the loop variable `pos` after unpacking each event). -/
def lastPosOr (posQ : Option Pos) : List Event → Option Pos
  | [] => posQ
  | e :: rest => lastPosOr (some e.pos) rest

/-! ### Discriminators and side conditions used by the claim statements -/

/-- How many EXPR events a stream holds (top level). -/
def countExprEvents (events : List Event) : Nat :=
  events.foldl
    (fun n ev =>
      match ev with
      | .exprEv .. => n + 1
      | _ => n)
    0

/-- The captured-substream length of the first `py:def` directive of the
stream's first SUB event, if any. -/
def firstDefCaptureLen (events : List Event) : Option Nat :=
  match events with
  | .sub ds _ _ :: _ =>
    (ds.filterMap fun d =>
      match d with
      | .defD _ _ _ cap => some cap.length
      | _ => Option.none).head?
  | _ => Option.none

/-- A compiled event that is neither a SUB nor an EXPR event. -/
def Event.isPlain : Event → Bool
  | .sub .. => false
  | .exprEv .. => false
  | _ => true

/-- No attribute of any start event lives in the directive namespace. -/
def noDirAttrs (inp : List InEvent) : Bool :=
  inp.all fun ev =>
    match ev with
    | .start _ attrib _ => attrib.all fun p => p.1.ns ≠ some NAMESPACE
    | _ => true

/-- No text event contains an interpolation dollar sign. -/
def noDollarText (inp : List InEvent) : Bool :=
  inp.all fun ev =>
    match ev with
    | .text s _ => !s.data.contains '$'
    | _ => true

/-! ### Concrete scenario inputs -/

/-- `<span py:content="c" py:replace="r">Hello</span>` inside the directive
namespace declaration, as the external markup parser delivers it. -/
def c1Input : List InEvent :=
  [ InEvent.startNS "py" NAMESPACE (1, 1),
    InEvent.start ⟨Option.none, "span"⟩
      [(⟨some NAMESPACE, "content"⟩, "c"), (⟨some NAMESPACE, "replace"⟩, "r")] (1, 1),
    InEvent.text "Hello" (1, 21),
    InEvent.stop ⟨Option.none, "span"⟩ (1, 30),
    InEvent.endNS "py" (1, 40) ]

/-- The substream of the span element of `c1Input`. -/
def c1Body : List Event :=
  [ Event.start ⟨Option.none, "span"⟩ [] (1, 1),
    Event.text "Hello" (1, 21),
    Event.stop ⟨Option.none, "span"⟩ (1, 30) ]

/-- The compiled stream of `c1Input`: one SUB whose directive list is in
canonical priority order (replace before content). -/
def c1Stream1 : List Event :=
  [Event.sub [Dir.replaceD (some "r"), Dir.contentD (some "c")] c1Body (1, 30)]

/-- `c1Stream1` after one generate call: the stored directive list was
reversed in place. -/
def c1Stream2 : List Event :=
  [Event.sub [Dir.contentD (some "c"), Dir.replaceD (some "r")] c1Body (1, 30)]

/-- A context binding `r` to `"R"` and `c` to `"C"`. -/
def c1Ctxt : Ctxt :=
  mkCtxt [("r", Value.str "R"), ("c", Value.str "C")]

/-- `<p py:def="f()" py:if="flag">Hi</p>` as the markup parser delivers it. -/
def c5Input : List InEvent :=
  [ InEvent.startNS "py" NAMESPACE (1, 1),
    InEvent.start ⟨Option.none, "p"⟩
      [(⟨some NAMESPACE, "def"⟩, "f()"), (⟨some NAMESPACE, "if"⟩, "flag")] (1, 1),
    InEvent.text "Hi" (1, 25),
    InEvent.stop ⟨Option.none, "p"⟩ (1, 30),
    InEvent.endNS "py" (1, 40) ]

/-- The substream of the p element of `c5Input`. -/
def c5Body : List Event :=
  [ Event.start ⟨Option.none, "p"⟩ [] (1, 1),
    Event.text "Hi" (1, 25),
    Event.stop ⟨Option.none, "p"⟩ (1, 30) ]

/-- The compiled stream of `c5Input` (canonical order: def before if). -/
def c5Stream0 : List Event :=
  [Event.sub [Dir.defD "f" [] [] [], Dir.ifD (some "flag")] c5Body (1, 30)]

/-- After the first evaluation: list reversed, `py:def` captured the empty
stream the falsy `py:if` produced. -/
def c5Stream1 : List Event :=
  [Event.sub [Dir.ifD (some "flag"), Dir.defD "f" [] [] []] c5Body (1, 30)]

/-- After the second evaluation: list reversed back to canonical order, and
`py:def` — now applied first — re-captured the whole raw substream,
overwriting its first capture. -/
def c5Stream2 : List Event :=
  [Event.sub [Dir.defD "f" [] [] c5Body, Dir.ifD (some "flag")] c5Body (1, 30)]

/-- A context binding `flag` to `False`. -/
def c5Ctxt : Ctxt :=
  mkCtxt [("flag", Value.bool false)]

/-- `c5Ctxt` after `py:def` bound the template function `f`. -/
def c5CtxtA : Ctxt :=
  ⟨[[("flag", Value.bool false), ("f", Value.callable "f")]]⟩

/-- `<div>$\x7bx\x7d</div>`: no directive attributes, but an interpolated
expression. -/
def c8Input : List InEvent :=
  [ InEvent.start ⟨Option.none, "div"⟩ [] (1, 1),
    InEvent.text "$\x7bx\x7d" (1, 6),
    InEvent.stop ⟨Option.none, "div"⟩ (1, 12) ]

/-- The compiled stream of `c8Input`: it holds an EXPR event. -/
def c8Stream : List Event :=
  [ Event.start ⟨Option.none, "div"⟩ [] (1, 1),
    Event.exprEv (some "x") (1, 6),
    Event.stop ⟨Option.none, "div"⟩ (1, 12) ]

/-- A context binding `x` to `"A"`. -/
def c8Ctxt : Ctxt :=
  mkCtxt [("x", Value.str "A")]

/-- What `generate` produces from `c8Stream` under `c8Ctxt`: the EXPR event
became text. -/
def c8Out : List Event :=
  [ Event.start ⟨Option.none, "div"⟩ [] (1, 1),
    Event.text "A" (1, 6),
    Event.stop ⟨Option.none, "div"⟩ (1, 12) ]

/-- A directive-free, expression-free document for the identity law. -/
def c8PlainInput : List InEvent :=
  [ InEvent.start ⟨Option.none, "div"⟩ [(⟨Option.none, "class"⟩, "big")] (1, 1),
    InEvent.text "hello  world" (1, 17),
    InEvent.stop ⟨Option.none, "div"⟩ (1, 30) ]

/-- The compiled stream of `c8PlainInput`. -/
def c8PlainStream : List Event :=
  [ Event.start ⟨Option.none, "div"⟩
      [(⟨Option.none, "class"⟩, AttrVal.frags [Frag.ftext "big" (1, 1)])] (1, 1),
    Event.text "hello  world" (1, 17),
    Event.stop ⟨Option.none, "div"⟩ (1, 30) ]

/-! ### Helper lemmas -/

theorem frameGet_frameSet_same (f : Frame) (k : String) (v : Value) :
    frameGet (frameSet f k v) k = some v := by
  induction f with
  | nil => simp [frameSet, frameGet]
  | cons p rest ih =>
    obtain ⟨k1, v1⟩ := p
    by_cases h : k1 = k
    · simp [frameSet, frameGet, h]
    · simp [frameSet, frameGet, h, ih]

theorem frameGet_frameSet_other {k k2 : String} (hne : k2 ≠ k) (f : Frame) (v : Value) :
    frameGet (frameSet f k v) k2 = frameGet f k2 := by
  have hne2 : k ≠ k2 := Ne.symm hne
  induction f with
  | nil => simp [frameSet, frameGet, hne2]
  | cons p rest ih =>
    obtain ⟨k1, v1⟩ := p
    by_cases h : k1 = k
    · subst h
      simp [frameSet, frameGet, hne2]
    · simp only [frameSet, if_neg h, frameGet]
      by_cases h2 : k1 = k2
      · simp [h2]
      · simp [h2, ih]

theorem assocFind_assocErase_none {κ α : Type} [DecidableEq κ]
    {m : List (κ × α)} {k2 : κ} (k : κ) (h : assocFind m k2 = Option.none) :
    assocFind (assocErase m k) k2 = Option.none := by
  induction m with
  | nil => simp [assocErase, assocFind]
  | cons p rest ih =>
    obtain ⟨k1, v1⟩ := p
    simp only [assocFind] at h
    by_cases h1 : k1 = k2
    · simp [h1] at h
    · simp only [if_neg h1] at h
      by_cases h2 : k1 = k
      · simpa [assocErase, h2] using h
      · simp [assocErase, h2, assocFind, h1, ih h]

theorem buildScope_skip (dfl : List (String × Value)) :
    ∀ (ns : List String) (kw : List (String × Value)) (scope : Frame) (k : String),
      k ∉ ns → frameGet (buildScope dfl ns [] kw scope) k = frameGet scope k := by
  intro ns
  induction ns with
  | nil => intro kw scope k _; rfl
  | cons n rest ih =>
    intro kw scope k hk
    have hkn : k ≠ n := fun h => hk (h ▸ List.mem_cons_self n rest)
    have hkr : k ∉ rest := fun h => hk (List.mem_cons_of_mem n h)
    simp only [buildScope]
    cases assocFind kw n with
    | none => rw [ih _ _ _ hkr, frameGet_frameSet_other hkn]
    | some v => rw [ih _ _ _ hkr, frameGet_frameSet_other hkn]

theorem buildScope_missing (dfl : List (String × Value)) :
    ∀ (ns : List String) (kw : List (String × Value)) (scope : Frame) (k : String),
      k ∈ ns → assocFind kw k = Option.none → assocFind dfl k = Option.none →
      frameGet (buildScope dfl ns [] kw scope) k = some Value.none := by
  intro ns
  induction ns with
  | nil => intro kw scope k hk; exact absurd hk (List.not_mem_nil k)
  | cons n rest ih =>
    intro kw scope k hk hkw hdfl
    by_cases hn : k = n
    · subst hn
      simp only [buildScope, hkw, hdfl, Option.getD_none]
      by_cases hr : k ∈ rest
      · exact ih _ _ _ hr hkw hdfl
      · rw [buildScope_skip _ _ _ _ _ hr, frameGet_frameSet_same]
    · have hr : k ∈ rest := by
        cases List.mem_cons.mp hk with
        | inl h => exact absurd h hn
        | inr h => exact h
      simp only [buildScope]
      cases hfind : assocFind kw n with
      | none => exact ih _ _ _ hr hkw hdfl
      | some v => exact ih _ _ _ hr (assocFind_assocErase_none n hkw) hdfl

theorem findFull_no_dollar :
    ∀ (l : List Char) (prev : Option Char), '$' ∉ l → findFull prev l = Option.none := by
  intro l
  induction l with
  | nil => intro prev _; rfl
  | cons c rest ih =>
    intro prev h
    have hc : ¬(c = '$') := fun hc => h (hc ▸ List.mem_cons_self c rest)
    have hrest : '$' ∉ rest := fun hm => h (List.mem_cons_of_mem c hm)
    simp [findFull, hc, ih (some c) hrest]

theorem findShort_no_dollar :
    ∀ (l : List Char) (prev : Option Char), '$' ∉ l → findShort prev l = Option.none := by
  intro l
  induction l with
  | nil => intro prev _; rfl
  | cons c rest ih =>
    intro prev h
    have hc : ¬(c = '$') := fun hc => h (hc ▸ List.mem_cons_self c rest)
    have hrest : '$' ∉ rest := fun hm => h (List.mem_cons_of_mem c hm)
    simp [findShort, hc, ih (some c) hrest]

theorem interpolate_no_dollar (s : String) (pos : Pos) (h : '$' ∉ s.data) :
    ∀ f ∈ interpolate s pos, ∃ t, f = Frag.ftext t pos := by
  have hf : findFull Option.none s.data = Option.none := findFull_no_dollar _ _ h
  have hs : findShort Option.none s.data = Option.none := findShort_no_dollar _ _ h
  intro f hmem
  rw [interpolate] at hmem
  rw [show (2 : Nat) = Nat.succ 1 from rfl] at hmem
  rw [interpGo] at hmem
  simp only [splitPat, splitFull, splitFullGo, hf, List.enum, List.enumFrom,
    List.foldl_cons, List.foldl_nil] at hmem
  cases hd : s.data with
  | nil =>
    rw [hd] at hmem
    simp at hmem
  | cons c rest =>
    rw [hd] at hmem
    simp only [Nat.zero_mod, List.cons_ne_nil, ne_eq, not_false_eq_true, if_true, if_neg,
      List.nil_append, reduceIte] at hmem
    rw [show (1 : Nat) = Nat.succ 0 from rfl, interpGo] at hmem
    rw [← hd] at hmem
    simp only [splitPat, splitShort, splitShortGo, hs, List.enum, List.enumFrom,
      List.foldl_cons, List.foldl_nil] at hmem
    rw [hd] at hmem
    simp at hmem
    subst hmem
    exact ⟨_, rfl⟩

theorem evalFilterEvent_plain {ev : Event} (h : Event.isPlain ev = true) (c : Ctxt) :
    evalFilterEvent ev c = ev := by
  cases ev <;> simp [Event.isPlain] at h ⊢ <;> rfl

theorem foldl_transformStep_plain :
    ∀ (S : List Event) (deeper : List Event → Ctxt → Option (List Event × List Event × Ctxt))
      (acc : List Event × List Event × Ctxt),
      (∀ ev ∈ S, Event.isPlain ev = true) →
      S.foldlM (transformStep deeper) acc = some (acc.1 ++ S, acc.2.1 ++ S, acc.2.2) := by
  intro S
  induction S with
  | nil => intro deeper acc _; simp
  | cons ev rest ih =>
    intro deeper acc h
    have hev : Event.isPlain ev = true := h ev (List.mem_cons_self ev rest)
    have hrest : ∀ e ∈ rest, Event.isPlain e = true := fun e he => h e (List.mem_cons_of_mem ev he)
    rw [List.foldlM_cons]
    have hstep : transformStep deeper acc ev
        = some (acc.1 ++ [ev], acc.2.1 ++ [ev], acc.2.2) := by
      rw [transformStep, evalFilterEvent_plain hev]
      cases ev <;> simp [Event.isPlain] at hev ⊢
    rw [hstep]
    show List.foldlM (transformStep deeper) (acc.1 ++ [ev], acc.2.1 ++ [ev], acc.2.2) rest = _
    rw [ih deeper _ hrest]
    simp

theorem transformGo_plain (fuel : Nat) (S : List Event) (ctxt : Ctxt)
    (h : ∀ ev ∈ S, Event.isPlain ev = true) :
    transformGo fuel S ctxt = some (S, S, ctxt) := by
  rw [transformGo.eq_def]
  show S.foldlM (transformStep (match fuel with
      | 0 => fun _ _ => Option.none
      | fuel2 + 1 => transformGo fuel2)) ([], [], ctxt) = _
  rw [foldl_transformStep_plain S _ ([], [], ctxt) h]
  simp

theorem plainAppend {s1 s2 : List Event} (h1 : ∀ ev ∈ s1, Event.isPlain ev = true)
    (h2 : ∀ ev ∈ s2, Event.isPlain ev = true) : ∀ ev ∈ s1 ++ s2, Event.isPlain ev = true := by
  intro ev hm
  cases List.mem_append.mp hm with
  | inl h => exact h1 ev h
  | inr h => exact h2 ev h

theorem attribFold_no_dir :
    ∀ (attrib : List (QName × String)) (pos : Pos)
      (acc : List (Dir × Option String) × List (QName × AttrVal)),
      (attrib.all fun p => p.1.ns ≠ some NAMESPACE) = true →
      ∃ na, attrib.foldlM (parseAttrStep pos) acc = Except.ok (acc.1, na) := by
  intro attrib
  induction attrib with
  | nil => intro pos acc _; exact ⟨acc.2, rfl⟩
  | cons p rest ih =>
    intro pos acc h
    simp only [List.all_cons, Bool.and_eq_true] at h
    obtain ⟨hp, hrest⟩ := h
    rw [List.foldlM_cons]
    have hstep : parseAttrStep pos acc p
        = Except.ok (acc.1, acc.2 ++ [(p.1, AttrVal.frags (interpolate p.2 pos))]) := by
      rw [parseAttrStep]
      rw [if_neg (by simpa using hp)]
      rfl
    rw [hstep]
    show ∃ na, rest.foldlM (parseAttrStep pos)
        (acc.1, acc.2 ++ [(p.1, AttrVal.frags (interpolate p.2 pos))]) = Except.ok (acc.1, na)
    exact ih pos _ hrest

theorem parseGo_plain :
    ∀ (inp : List InEvent) (st : PState),
      noDirAttrs inp = true → noDollarText inp = true →
      (∀ ev ∈ st.stream, Event.isPlain ev = true) → st.dirmap = [] →
      ∀ (S : PState), parseGo st inp = Except.ok S →
      (∀ ev ∈ S.stream, Event.isPlain ev = true) ∧ S.dirmap = [] := by
  intro inp
  induction inp with
  | nil =>
    intro st _ _ hstream hdm S hS
    simp only [parseGo, Except.ok.injEq] at hS
    subst hS
    exact ⟨hstream, hdm⟩
  | cons ev rest ih =>
    intro st hnd hndt hstream hdm S hS
    simp only [noDirAttrs, List.all_cons, Bool.and_eq_true] at hnd
    simp only [noDollarText, List.all_cons, Bool.and_eq_true] at hndt
    obtain ⟨hndEv, hndRest⟩ := hnd
    obtain ⟨hndtEv, hndtRest⟩ := hndt
    have hndRest2 : noDirAttrs rest = true := hndRest
    have hndtRest2 : noDollarText rest = true := hndtRest
    cases ev with
    | startNS pfx uri pos =>
      rw [parseGo] at hS
      by_cases hu : uri = NAMESPACE
      · rw [if_pos hu] at hS
        refine ih _ hndRest2 hndtRest2 ?_ ?_ S hS
        · exact hstream
        · exact hdm
      · rw [if_neg hu] at hS
        refine ih _ hndRest2 hndtRest2 ?_ ?_ S hS
        · refine plainAppend hstream ?_
          intro e he
          rw [List.mem_singleton.mp he]
          rfl
        · exact hdm
    | endNS pfx pos =>
      rw [parseGo] at hS
      by_cases hu : (assocFind st.nsPfx pfx).isSome
      · rw [if_pos hu] at hS
        refine ih _ hndRest2 hndtRest2 ?_ ?_ S hS
        · exact hstream
        · exact hdm
      · rw [if_neg hu] at hS
        refine ih _ hndRest2 hndtRest2 ?_ ?_ S hS
        · refine plainAppend hstream ?_
          intro e he
          rw [List.mem_singleton.mp he]
          rfl
        · exact hdm
    | start tag attrib pos =>
      rw [parseGo] at hS
      obtain ⟨na, hfold⟩ := attribFold_no_dir attrib pos ([], []) hndEv
      rw [hfold] at hS
      simp only [Except.bind, bind, List.map_nil, List.isEmpty_nil, if_true, List.filterMap_nil,
        List.append_nil, reduceIte] at hS
      refine ih _ hndRest2 hndtRest2 ?_ ?_ S hS
      · refine plainAppend hstream ?_
        intro e he
        rw [List.mem_singleton.mp he]
        rfl
      · exact hdm
    | stop tag pos =>
      rw [parseGo] at hS
      rw [hdm] at hS
      simp only [assocFind] at hS
      refine ih _ hndRest2 hndtRest2 ?_ ?_ S hS
      · refine plainAppend hstream ?_
        intro e he
        rw [List.mem_singleton.mp he]
        rfl
      · rfl
    | text s pos =>
      rw [parseGo] at hS
      refine ih _ hndRest2 hndtRest2 ?_ ?_ S hS
      · refine plainAppend hstream ?_
        intro e he
        obtain ⟨f, hf, hfe⟩ := List.mem_map.mp he
        have hds : ('$' : Char) ∉ s.data := by
          simpa using hndtEv
        obtain ⟨t, ht⟩ := interpolate_no_dollar s pos hds f hf
        subst ht
        subst hfe
        rfl
      · exact hdm
    | other d pos =>
      rw [parseGo] at hS
      refine ih _ hndRest2 hndtRest2 ?_ ?_ S hS
      · refine plainAppend hstream ?_
        intro e he
        rw [List.mem_singleton.mp he]
        rfl
      · exact hdm

theorem forLoop_ctxt :
    ∀ (targets : List String) (stream : List Event) (c : Ctxt) (items : List Value)
      (out : List Event) (c2 : Ctxt),
      forLoop targets stream c items = some (out, c2) → c2 = c := by
  intro targets stream c items
  induction items generalizing c with
  | nil =>
    intro out c2 h
    simp [forLoop] at h
    exact h.2.symm
  | cons item rest ih =>
    intro out c2 h
    simp only [forLoop] at h
    cases hsc : buildForScope targets item with
    | none => rw [hsc] at h; simp at h
    | some scope =>
      rw [hsc] at h
      simp only [Ctxt.push, Ctxt.pop] at h
      cases hrec : forLoop targets stream ⟨c.stack⟩ rest with
      | none => rw [hrec] at h; simp at h
      | some pr =>
        obtain ⟨out2, c4⟩ := pr
        rw [hrec] at h
        simp only [Option.some.injEq] at h
        have hc4 : c4 = ⟨c.stack⟩ := ih ⟨c.stack⟩ out2 c4 hrec
        have h2 : c4 = c2 := congrArg Prod.snd h
        subst h2
        exact hc4

theorem transformErrLoop_map_ev :
    ∀ (filename : String) (evs : List Event) (posQ : Option Pos) (tail : List Pull),
      transformErrLoop filename posQ (evs.map Pull.ev ++ tail)
        = (evs ++ (transformErrLoop filename (lastPosOr posQ evs) tail).1,
           (transformErrLoop filename (lastPosOr posQ evs) tail).2) := by
  intro filename evs
  induction evs with
  | nil => intro posQ tail; simp [lastPosOr]
  | cons e evs ih =>
    intro posQ tail
    rw [List.map_cons, List.cons_append, transformErrLoop]
    rw [ih (some e.pos) tail]
    simp [lastPosOr]

/-! ### The claims -/

/-- C1 (code_bug evidence): the compiled stream of
`<span py:content="c" py:replace="r">Hello</span>` stores the directive list
in canonical priority order (replace before content).  The first `generate`
call applies the list in the reverse of that order — `py:content` innermost,
`py:replace` outermost — so the output is the `py:replace` expression `r`.
But `directives.reverse()` mutates the list stored in `Template.stream`, so
the second call on the same template applies the canonical, non-reversed
order and the output comes from `py:content` instead: the claimed "same
reversed order on every evaluation of the SUB node" fails at the second
evaluation. -/
theorem c1_reverse_mutation_alternates_order :
    parseT c1Input = Except.ok c1Stream1 ∧
    transformGo 2 c1Stream1 c1Ctxt = some ([Event.text "R" (1, 1)], c1Stream2, c1Ctxt) ∧
    transformGo 2 c1Stream2 c1Ctxt = some ([Event.text "C" (1, 1)], c1Stream1, c1Ctxt) ∧
    ("R" : String) ≠ "C" :=
  ⟨rfl, rfl, rfl, by decide⟩

/-- C2 (counterexample): `Context.pop` on a freshly constructed context —
one holding only its base frame — succeeds silently and leaves the stack
empty, where the claim requires an error whenever the removal would leave
the stack empty.  The `assert self.stack` guard checks emptiness before the
pop, not after. -/
theorem c2_pop_base_frame_succeeds :
    Ctxt.pop (mkCtxt [("x", Value.int 1)]) = some ⟨[]⟩ ∧
    Ctxt.pop (mkCtxt [("x", Value.int 1)]) ≠ Option.none :=
  ⟨rfl, fun h => Option.noConfusion h⟩

/-- C2 (amended): `Context.pop` fails (assertion error) exactly when the
stack is already empty before the call; any non-empty stack, the single base
frame included, is popped successfully — so the stack is guarded down to
empty, not down to the base frame. -/
theorem c2_pop_asserts_only_when_already_empty :
    ∀ (c : Ctxt),
      (Ctxt.pop c = Option.none ↔ c.stack = []) ∧
      ∀ (f : Frame) (t : List Frame), c.stack = f :: t → Ctxt.pop c = some ⟨t⟩ := by
  intro c
  obtain ⟨stack⟩ := c
  cases stack with
  | nil =>
    refine ⟨by simp [Ctxt.pop], fun f t h => ?_⟩
    simp at h
  | cons f t =>
    refine ⟨by simp [Ctxt.pop], fun f2 t2 h => ?_⟩
    injection h with h1 h2
    subst h2
    rfl

/-- C2 witness: the amended theorem applied to a concrete two-frame stack. -/
theorem c2_pop_asserts_witness :
    Ctxt.pop ⟨[[("x", Value.int 1)], []]⟩ = some ⟨[[]]⟩ :=
  (c2_pop_asserts_only_when_already_empty ⟨[[("x", Value.int 1)], []]⟩).2 _ _ rfl

/-- C3 (counterexample): a non-syntax evaluation error raised while the
transform loop walks the stream escapes unwrapped — the `except` clause of
`generate` catches only `SyntaxError`, so the escaped error carries no
template filename or position, where the claim requires every error kind to
be re-raised wrapped. -/
theorem c3_runtime_error_not_wrapped :
    transformErrLoop "tmpl.html" Option.none
        [Pull.ev (Event.text "hi" (3, 5)), Pull.err (PyErr.runtimeError "boom")]
      = ([Event.text "hi" (3, 5)], some (TErr.runtime "boom")) ∧
    TErr.isWrapped (TErr.runtime "boom") = false :=
  ⟨rfl, rfl⟩

/-- C3 (amended): the transform loop passes an error-free stream through
unchanged; a `SyntaxError` raised mid-stream is caught once and re-raised
wrapped with the template filename and the position of the last event the
loop unpacked (plus the error's offset); any other exception propagates
unchanged, and in neither case is anything retried or swallowed. -/
theorem c3_only_syntax_errors_wrapped :
    ∀ (filename : String) (evs : List Event) (msg msg2 : String) (off : Option Nat),
      transformErrLoop filename Option.none (evs.map Pull.ev) = (evs, Option.none) ∧
      transformErrLoop filename Option.none
          (evs.map Pull.ev ++ [Pull.err (PyErr.syntaxError msg off)])
        = (evs, some (wrapSyn filename msg off (lastPosOr Option.none evs))) ∧
      transformErrLoop filename Option.none
          (evs.map Pull.ev ++ [Pull.err (PyErr.runtimeError msg2)])
        = (evs, some (TErr.runtime msg2)) ∧
      TErr.isWrapped (TErr.runtime msg2) = false := by
  intro filename evs msg msg2 off
  refine ⟨?_, ?_, ?_, rfl⟩
  · have h := transformErrLoop_map_ev filename evs Option.none []
    simpa [transformErrLoop] using h
  · rw [transformErrLoop_map_ev]
    simp [transformErrLoop]
  · rw [transformErrLoop_map_ev]
    simp [transformErrLoop]

/-- C4 (code_bug evidence): interpolating `"$a $\x7bb\x7d $c"` leaves the
second residue segment `" $c"` as literal text: the shared pattern list is
exhausted by the recursion into the first residue, so later residues are
never rescanned for the short form — even though `" $c"` on its own does
contain a short-form expression, as the second conjunct shows. -/
theorem c4_second_residue_not_rescanned :
    interpolate "$a $\x7bb\x7d $c" (7, 3)
      = [Frag.fexpr "a" (7, 3), Frag.ftext " " (7, 3), Frag.fexpr "b" (7, 3),
         Frag.ftext " $c" (7, 3)] ∧
    interpolate " $c" (7, 3) = [Frag.ftext " " (7, 3), Frag.fexpr "c" (7, 3)] :=
  ⟨rfl, rfl⟩

/-- C5 (counterexample): for `<p py:def="f()" py:if="flag">Hi</p>` evaluated
twice against a context where `flag` is false, `py:def` captures the empty
stream produced by the falsy `py:if` on the first evaluation (captured
length 0) and then re-captures the whole raw substream on the second
evaluation (captured length 3), overwriting the first capture — the body is
not acquired exactly once nor reused. -/
theorem c5_capture_overwritten_on_reeval :
    parseT c5Input = Except.ok c5Stream0 ∧
    transformGo 2 c5Stream0 c5Ctxt = some ([], c5Stream1, c5CtxtA) ∧
    transformGo 2 c5Stream1 c5CtxtA = some ([], c5Stream2, c5CtxtA) ∧
    firstDefCaptureLen c5Stream1 = some 0 ∧
    firstDefCaptureLen c5Stream2 = some 3 ∧
    (0 : Nat) ≠ 3 :=
  ⟨rfl, rfl, rfl, rfl, rfl, by decide⟩

/-- C5 (amended): `DefDirective.__call__` and `MatchDirective.__call__`
re-capture their body substream on every application — `self.stream =
list(stream)` overwrites whatever was captured before, regardless of the
previous capture, and each later invocation or match replay uses the most
recent capture. -/
theorem c5_recapture_on_every_application :
    ∀ (n : String) (args : List String) (dfl : List (String × Value))
      (cap0 stream : List Event) (ctxt : Ctxt) (path : String),
      applyDir (Dir.defD n args dfl cap0) stream ctxt
        = (Ctxt.set ctxt n (Value.callable n)).map
            (fun c2 => ([], Dir.defD n args dfl stream, c2)) ∧
      applyDir (Dir.matchD path cap0) stream ctxt = some ([], Dir.matchD path stream, ctxt) := by
  intro n args dfl cap0 stream ctxt path
  constructor
  · cases h : Ctxt.set ctxt n (Value.callable n) <;> simp [applyDir, h]
  · rfl

/-- C6: if the iteration expression is undefined, `ForDirective` evaluates
it to the default `[]` and produces no output at all while leaving the
context untouched; and whenever the directive completes successfully — any
iterable, any length — the final context equals the initial one (each item's
frame is pushed and popped around its replay). -/
theorem c6_for_undefined_empty_and_stack_balanced :
    ∀ (targets : List String) (e : ExprSrc) (stream : List Event) (ctxt : Ctxt),
      (evalOpt e ctxt = Option.none → forApply targets e stream ctxt = some ([], ctxt)) ∧
      ∀ (out : List Event) (ctxt2 : Ctxt),
        forApply targets e stream ctxt = some (out, ctxt2) → ctxt2 = ctxt := by
  intro targets e stream ctxt
  constructor
  · intro h
    simp [forApply, evaluate, h, pyIter, forLoop]
  · intro out ctxt2 h
    rw [forApply] at h
    cases hv : evaluate e ctxt (Value.list []) <;> rw [hv] at h
    case none =>
      simp at h
      exact h.2.symm
    case bool b => simp [pyIter] at h
    case int n => simp [pyIter] at h
    case callable fn => simp [pyIter] at h
    case str s =>
      simp only [pyIter, Option.some_bind] at h
      exact forLoop_ctxt _ _ _ _ _ _ h
    case list items =>
      simp only [pyIter, Option.some_bind] at h
      exact forLoop_ctxt _ _ _ _ _ _ h
    case pair a b =>
      simp only [pyIter, Option.some_bind] at h
      exact forLoop_ctxt _ _ _ _ _ _ h
    case dict entries =>
      simp only [pyIter, Option.some_bind] at h
      exact forLoop_ctxt _ _ _ _ _ _ h

/-- C6 witness: the theorem's undefined case at a concrete context that
binds nothing. -/
theorem c6_for_witness :
    forApply ["item"] "xs" [Event.text "x" (1, 1)] (mkCtxt []) = some ([], mkCtxt []) :=
  (c6_for_undefined_empty_and_stack_balanced ["item"] "xs" [Event.text "x" (1, 1)] (mkCtxt [])).1 rfl

/-- C7 (counterexample): merging `\x7b"a": " x "\x7d` into an element whose
attribute `a` exists sets the attribute to `"x"` — the stringified value is
additionally whitespace-stripped (`unicode(value).strip()`), so the claim's
"that value stringified and set" does not hold for a value with surrounding
whitespace. -/
theorem c7_attrs_strip_counterexample :
    attrsApply "foo"
        [Event.start ⟨Option.none, "li"⟩
          [(⟨Option.none, "a"⟩, AttrVal.frags [Frag.ftext "1" (1, 1)])] (1, 1)]
        (mkCtxt [("foo", Value.dict [("a", Value.str " x ")])])
      = some [Event.start ⟨Option.none, "li"⟩
          [(⟨Option.none, "a"⟩, AttrVal.plain "x")] (1, 1)] ∧
    pyStr (Value.str " x ") = " x " ∧
    ("x" : String) ≠ " x " :=
  ⟨rfl, rfl, by decide⟩

/-- C7 (amended): a falsy `py:attrs` expression leaves the element's
attributes entirely unchanged; a truthy one (ordered pairs or mapping)
merges each key — a `None` value removes the attribute, any other value is
stringified, whitespace-stripped and set — and the rest of the stream passes
through unchanged. -/
theorem c7_attrs_merge_behaviour :
    ∀ (e : ExprSrc) (tag : QName) (attrib : List (QName × AttrVal)) (pos : Pos)
      (rest : List Event) (ctxt : Ctxt),
      (truthy (evaluate e ctxt Value.none) = false →
        attrsApply e (Event.start tag attrib pos :: rest) ctxt
          = some (Event.start tag attrib pos :: rest)) ∧
      (∀ prs, truthy (evaluate e ctxt Value.none) = true →
        toPairs (evaluate e ctxt Value.none) = some prs →
        attrsApply e (Event.start tag attrib pos :: rest) ctxt
          = some (Event.start tag (mergeAttrs attrib prs) pos :: rest)) ∧
      (∀ k, mergeAttrs attrib [(k, Value.none)] = attribRemove attrib k) ∧
      (∀ k v, v ≠ Value.none → mergeAttrs attrib [(k, v)] = attribSet attrib k (pyStrip (pyStr v))) := by
  intro e tag attrib pos rest ctxt
  refine ⟨?_, ?_, ?_, ?_⟩
  · intro h
    simp [attrsApply, h]
  · intro prs h1 h2
    simp [attrsApply, h1, h2]
  · intro k
    rfl
  · intro k v hv
    cases v <;> first | exact absurd rfl hv | rfl

/-- C7 witness: the amended theorem's falsy case at a concrete context where
the expression is undefined (hence `None`, hence falsy). -/
theorem c7_attrs_witness :
    attrsApply "foo" [Event.start ⟨Option.none, "li"⟩ [] (1, 1)] (mkCtxt [])
      = some [Event.start ⟨Option.none, "li"⟩ [] (1, 1)] :=
  (c7_attrs_merge_behaviour "foo" ⟨Option.none, "li"⟩ [] (1, 1) [] (mkCtxt [])).1 rfl

/-- C8 (counterexample): `<div>$\x7bx\x7d</div>` carries no directive
attributes, yet `generate`'s output is not structurally equal to the parsed
stream after whitespace post-filtering: the parsed stream holds an EXPR
event where the output holds the evaluated text. -/
theorem c8_expression_breaks_identity :
    noDirAttrs c8Input = true ∧
    parseT c8Input = Except.ok c8Stream ∧
    generateT 1 c8Stream c8Ctxt wsFilter = some (c8Out, c8Stream, c8Ctxt) ∧
    wsFilter c8Stream = c8Stream ∧
    countExprEvents c8Out = 0 ∧
    countExprEvents c8Stream = 1 ∧
    c8Out ≠ wsFilter c8Stream := by
  refine ⟨rfl, rfl, rfl, rfl, rfl, rfl, ?_⟩
  intro h
  exact absurd (congrArg countExprEvents h) (by decide)

/-- C8 (amended): for input with no directive attributes and no
interpolation dollar in text, the compiled stream holds no SUB and no EXPR
events, and `generate` against any context returns exactly the parsed
stream passed through the post-filter (identity law modulo the post-filter,
for any post-filter). -/
theorem c8_identity_modulo_postfilter :
    ∀ (inp : List InEvent) (S : List Event) (ctxt : Ctxt)
      (w : List Event → List Event) (fuel : Nat),
      noDirAttrs inp = true → noDollarText inp = true →
      parseT inp = Except.ok S →
      generateT fuel S ctxt w = some (w S, S, ctxt) := by
  intro inp S ctxt w fuel hnd hndt hparse
  rw [parseT] at hparse
  cases hgo : parseGo initPState inp with
  | error err =>
    rw [hgo] at hparse
    simp [Except.map] at hparse
  | ok st =>
    rw [hgo] at hparse
    simp only [Except.map, Except.ok.injEq] at hparse
    subst hparse
    obtain ⟨hplain, _⟩ := parseGo_plain inp initPState hnd hndt
      (by intro ev h; exact absurd h (List.not_mem_nil ev)) rfl st hgo
    rw [generateT, transformGo_plain fuel _ ctxt hplain]
    rfl

/-- C8 witness: the amended theorem at a concrete directive-free,
expression-free document, with the whitespace post-filter. -/
theorem c8_identity_witness :
    generateT 0 c8PlainStream (mkCtxt []) wsFilter
      = some (wsFilter c8PlainStream, c8PlainStream, mkCtxt []) :=
  c8_identity_modulo_postfilter c8PlainInput c8PlainStream (mkCtxt []) wsFilter 0 rfl rfl rfl

/-- C9: pushing a frame and popping it immediately restores the context
exactly — the frame stack is unchanged and `get` answers as before for
every name. -/
theorem c9_push_pop_restores :
    ∀ (c : Ctxt) (f : Frame) (k : String),
      Ctxt.pop (Ctxt.push c f) = some c ∧
      (Ctxt.pop (Ctxt.push c f)).map (fun c2 => Ctxt.get c2 k) = some (Ctxt.get c k) :=
  fun _ _ _ => ⟨rfl, rfl⟩

/-- C10: invoking a `py:def` template function while omitting an argument
whose formal parameter has no declared default raises nothing — the
invocation completes, and the pushed scope frame binds that formal name to
`None`. -/
theorem c10_missing_arg_binds_none :
    ∀ (n : String) (args : List String) (dfl : List (String × Value))
      (captured : List Event) (ctxt : Ctxt) (kw : List (String × Value)) (name : String),
      name ∈ args → assocFind kw name = Option.none → assocFind dfl name = Option.none →
      execDef (Dir.defD n args dfl captured) ctxt [] kw = some (captured, ctxt) ∧
      frameGet (buildScope dfl args [] kw []) name = some Value.none := by
  intro n args dfl captured ctxt kw name hmem hkw hdfl
  exact ⟨rfl, buildScope_missing dfl args kw [] name hmem hkw hdfl⟩

/-- C10 witness: the theorem at the concrete signature `echo(greeting,
name)` invoked with no arguments at all. -/
theorem c10_missing_arg_witness :
    execDef (Dir.defD "echo" ["greeting", "name"] [] []) (mkCtxt []) [] []
      = some ([], mkCtxt []) ∧
    frameGet (buildScope [] ["greeting", "name"] [] [] []) "name" = some Value.none :=
  c10_missing_arg_binds_none "echo" ["greeting", "name"] [] [] (mkCtxt []) [] "name"
    (by simp) rfl rfl

end Genshi
